import Mathlib

/-!
Shallow embedding of the statistics core of the DiceGraph repository
(`statistics_utils.py`, `dice_manager.py`, `simulation.py`) together with
proofs of its specified properties.

Python floats are modelled as rationals (`ℚ`), face values as integers
(`ℤ`), counts as naturals (`ℕ`).  Python dictionaries keyed by face are
embedded as total count functions `ℤ → ℕ` (a `Counter`, which defaults to 0)
or as `ℤ → Option ℚ` when key absence is observable.  Exceptions are
embedded as `Option` results.
-/

namespace DiceGraph

/-- Model of the third-party `scipy.stats.chisquare` routine used by
`chi_square_test` (`statistics_utils.py` line 37), which is not part of this
repository.  `sf s d` is the upper-tail probability of the statistic `s`
under a chi-square distribution with `d` degrees of freedom, so it takes
values in `[0, 1]` and equals `1` at statistic `0`.  `fails o e` tells
whether the library call raises an exception on observed frequencies `o` and
expected frequencies `e`; the library never raises when the two frequency
sums agree and every expected frequency is positive. -/
structure ChisqModel where
  sf : ℚ → ℕ → ℚ
  fails : List ℚ → List ℚ → Bool
  sf_nonneg : ∀ s d, 0 ≤ sf s d
  sf_le_one : ∀ s d, sf s d ≤ 1
  sf_zero : ∀ d, sf 0 d = 1
  no_fail : ∀ o e, o.sum = e.sum → (∀ x ∈ e, 0 < x) → fails o e = false

/-- The chi-square statistic `Σ (observed - expected)² / expected` computed
by `scipy.stats.chisquare` over paired frequency vectors. -/
def chi2_statistic (obs expd : List ℚ) : ℚ :=
  ((obs.zip expd).map (fun p => (p.1 - p.2) ^ 2 / p.2)).sum

/-- The library call `stats.chisquare(f_obs, f_exp)`: `none` when the call
raises, otherwise the statistic paired with the upper-tail p-value at
`len(f_obs) - 1` degrees of freedom (`ddof = 0`). -/
def scipy_chisquare (m : ChisqModel) (obs expd : List ℚ) : Option (ℚ × ℚ) :=
  if m.fails obs expd then none
  else some (chi2_statistic obs expd, m.sf (chi2_statistic obs expd) (obs.length - 1))

/-- `chi_square_test(observed, expected_probs)` from `statistics_utils.py`
lines 12-41: returns `(0, 1.0)` for a zero total, defaults `expected_probs`
to the uniform distribution over `len(observed)` categories, scales the
probabilities by the total to obtain expected frequencies, and falls back to
`(0, 1.0)` when the library call raises. -/
def chi_square_test (m : ChisqModel) (observed : List ℕ)
    (expected_probs : Option (List ℚ)) : ℚ × ℚ :=
  let total := observed.sum
  if total = 0 then (0, 1)
  else
    let num_categories := observed.length
    let probs := expected_probs.getD (List.replicate num_categories (1 / (num_categories : ℚ)))
    let expd := probs.map (fun p => (total : ℚ) * p)
    match scipy_chisquare m (observed.map (fun (n : ℕ) => (n : ℚ))) expd with
    | some r => r
    | none => (0, 1)

/-- The `fairness` dictionary assembled by `interpret_chi_square_result` and
by the insufficient-data branch of `get_dice_fairness`; keys that a branch
does not set are embedded as `none`. -/
structure FairnessTest where
  p_value : Option ℚ
  alpha : ℚ
  is_fair : Option Bool
  conclusion : String
  significance : String
  confidence_level : Option ℚ
  chi2_stat : Option ℚ
  deriving DecidableEq

/-- `interpret_chi_square_result(p_value, alpha)` (`statistics_utils.py`
lines 43-69).  The Python float formatting `:.3f` / `:.1f` inside the
message strings is abstracted to plain rational printing. -/
def interpret_chi_square_result (p_value : ℚ) (alpha : ℚ) : FairnessTest :=
  { p_value := some p_value
    alpha := alpha
    is_fair := some (decide (p_value ≥ alpha))
    conclusion :=
      if p_value ≥ alpha then
        "The dice appear to be fair (p=" ++ toString p_value ++ " ≥ α=" ++ toString alpha ++ ")"
      else
        "The dice may not be fair (p=" ++ toString p_value ++ " < α=" ++ toString alpha ++ ")"
    significance :=
      if p_value ≥ alpha then
        "No significant deviation from fairness at " ++ toString ((1 - alpha) * 100) ++ "% confidence level"
      else
        "Statistically significant deviation from fairness at " ++ toString ((1 - alpha) * 100) ++ "% confidence level"
    confidence_level := some ((1 - alpha) * 100)
    chi2_stat := none }

/-- The insufficient-data message built by `check_sample_size_validity`
(`statistics_utils.py` lines 96-99). -/
def insufficient_message (min_total total : ℕ) : String :=
  "Not enough data for reliable fairness test. Need at least " ++ toString min_total
    ++ " rolls (currently have " ++ toString total ++ ")."

/-- The validity dictionary returned by `check_sample_size_validity`. -/
structure SampleValidity where
  valid : Bool
  total : ℕ
  min_required : ℕ
  message : String
  deriving DecidableEq

/-- `check_sample_size_validity(observed, num_categories)`
(`statistics_utils.py` lines 71-101). -/
def check_sample_size_validity (observed : List ℕ) (num_categories : ℕ) : SampleValidity :=
  let total := observed.sum
  let min_expected := 5
  let min_total := min_expected * num_categories
  { valid := decide (total ≥ min_total)
    total := total
    min_required := min_total
    message := if total < min_total then insufficient_message min_total total else "" }

/-- A roll history as accepted by `get_dice_fairness`: either a flat list of
single-die values or a list of per-roll value lists (multiple dice). -/
inductive Rolls where
  | single (values : List ℤ)
  | multi (rolls : List (List ℤ))
  deriving DecidableEq

/-- The flattening step of `get_dice_fairness` (`statistics_utils.py`
lines 115-119). -/
def flatten_rolls : Rolls → List ℤ
  | Rolls.single values => values
  | Rolls.multi rolls => rolls.flatten

/-- `observed = [counts.get(i, 0) for i in range(1, num_faces + 1)]`
(`statistics_utils.py` line 123): per-face occurrence counts of the
flattened rolls. -/
def observed_counts (flat : List ℤ) (num_faces : ℕ) : List ℕ :=
  (List.range num_faces).map (fun (i : ℕ) => flat.count ((i : ℤ) + 1))

/-- The report dictionary returned by `get_dice_fairness`
(`statistics_utils.py` lines 149-155). -/
structure FairnessReport where
  fairness_test : FairnessTest
  total_rolls : ℕ
  face_counts : ℤ → ℕ
  face_percentages : ℤ → Option ℚ
  sample_validity : SampleValidity

/-- `get_dice_fairness(rolls, num_faces, alpha)` (`statistics_utils.py`
lines 103-155). -/
def get_dice_fairness (m : ChisqModel) (rolls : Rolls) (num_faces : ℕ)
    (alpha : ℚ) : FairnessReport :=
  let flat := flatten_rolls rolls
  let observed := observed_counts flat num_faces
  let sample_validity := check_sample_size_validity observed num_faces
  let fairness :=
    if sample_validity.valid then
      let r := chi_square_test m observed none
      { interpret_chi_square_result r.2 alpha with chi2_stat := some r.1 }
    else
      { p_value := none
        alpha := alpha
        is_fair := none
        conclusion := sample_validity.message
        significance := "Insufficient data for statistical inference"
        confidence_level := none
        chi2_stat := none }
  let total_rolls := flat.length
  { fairness_test := fairness
    total_rolls := total_rolls
    face_counts := fun v => flat.count v
    face_percentages := fun i =>
      if 1 ≤ i ∧ i ≤ (num_faces : ℤ) then
        some (if total_rolls > 0 then (flat.count i : ℚ) / (total_rolls : ℚ) * 100 else 0)
      else none
    sample_validity := sample_validity }

/-- The triple returned by `DiceManager.calculate_statistics`. -/
structure SingleStats where
  counts : ℤ → ℕ
  total : ℕ
  percentages : ℤ → Option ℚ

/-- `DiceManager.calculate_statistics(rolls)` (`dice_manager.py` lines
26-32): the percentages dictionary iterates `counts.items()`, so its keys
are exactly the faces that occur at least once in `rolls`. -/
def calculate_statistics (rolls : List ℤ) : SingleStats :=
  let total := rolls.length
  { counts := fun v => rolls.count v
    total := total
    percentages := fun face =>
      if rolls.count face ≠ 0 then
        some (if total > 0 then (rolls.count face : ℚ) / (total : ℚ) * 100 else 0)
      else none }

/-- The quadruple returned by `DiceManager.calculate_multi_statistics`. -/
structure MultiStats where
  counts : ℤ → ℕ
  total : ℕ
  percentages : ℤ → Option ℚ
  position_stats : ℕ → Option (ℤ → ℕ)

/-- `DiceManager.calculate_multi_statistics(rolls, dice_faces)`
(`dice_manager.py` lines 34-51).  The per-position dictionary is populated
only when the history is nonempty and every roll has the length of the first
roll; each position entry counts `roll[pos]` over the rolls long enough to
have that position. -/
def calculate_multi_statistics (rolls : List (List ℤ)) (dice_faces : ℕ) : MultiStats :=
  let all_values := rolls.flatten
  let total := all_values.length
  { counts := fun v => all_values.count v
    total := total
    percentages := fun face =>
      if 1 ≤ face ∧ face ≤ (dice_faces : ℤ) then
        some (if total > 0 then (all_values.count face : ℚ) / (total : ℚ) * 100 else 0)
      else none
    position_stats :=
      if rolls ≠ [] ∧ ∀ r ∈ rolls, r.length = (rolls.headD []).length then
        fun pos =>
          if pos < (rolls.headD []).length then
            some (fun face => (rolls.filterMap (fun r => r[pos]?)).count face)
          else none
      else fun _ => none }

/-- The per-roll sum distribution computed by
`DiceSimulator.create_simulation_figure` (`simulation.py` lines 71-75):
`Counter(sum(roll) for roll in rolls)` as a total count function. -/
def sum_distribution (rolls : List (List ℤ)) : ℤ → ℕ :=
  fun s => (rolls.map List.sum).count s

/-- `random.randint(1, faces)` for the `k`-th draw taken from the entropy
source `src`: a value in `[1, faces]` when `faces ≥ 1`, and a `ValueError`
(embedded as `none`) when the requested range is empty. -/
def randint1 (src : ℕ → ℕ) (k : ℕ) (faces : ℕ) : Option ℤ :=
  if faces = 0 then none else some (1 + ((src k : ℤ) % (faces : ℤ)))

/-- One roll of `num_dice` dice: the inner comprehension of
`DiceSimulator.simulate_rolls` (`simulation.py` line 16); draw indices start
at `base`. -/
def roll_dice (src : ℕ → ℕ) (base num_dice faces : ℕ) : Option (List ℤ) :=
  (List.range num_dice).mapM (fun j => randint1 src (base + j) faces)

/-- `DiceSimulator.simulate_rolls(num_rolls, num_dice, faces)`
(`simulation.py` lines 11-18); `DiceManager.simulate_rolls` in
`dice_manager.py` lines 14-24 performs the same sequence of draws. -/
def simulate_rolls (src : ℕ → ℕ) (num_rolls num_dice faces : ℕ) :
    Option (List (List ℤ)) :=
  (List.range num_rolls).mapM (fun i => roll_dice src (i * num_dice) num_dice faces)

/-- A concrete instance of the library model, used to evaluate the embedding
at concrete inputs. -/
def chisq_model_default : ChisqModel where
  sf := fun s _ => if s ≤ 0 then 1 else 1 / (1 + s)
  fails := fun o e => decide (o.sum ≠ e.sum)
  sf_nonneg := by
    intro s d
    dsimp only
    split
    · norm_num
    · have hs : (0 : ℚ) < s := lt_of_not_le (by assumption)
      exact le_of_lt (div_pos one_pos (by linarith))
  sf_le_one := by
    intro s d
    dsimp only
    split
    · norm_num
    · rw [div_le_one (by linarith)]
      linarith
  sf_zero := by
    intro d
    norm_num
  no_fail := by
    intro o e h _
    simp [h]

/-! ## Helper lemmas -/

lemma list_mapM_eq_some {α β : Type} (l : List α) (f : α → Option β) (g : α → β)
    (h : ∀ x ∈ l, f x = some (g x)) : l.mapM f = some (l.map g) := by
  induction l with
  | nil => rfl
  | cons a t ih =>
    rw [List.mapM_cons, h a (List.mem_cons_self a t),
      ih (fun x hx => h x (List.mem_cons_of_mem a hx))]
    rfl

lemma list_mapM_cons_none {α β : Type} (a : α) (t : List α) (f : α → Option β)
    (h : f a = none) : (a :: t).mapM f = none := by
  rw [List.mapM_cons, h]
  rfl

/-- Unfolding of the fairness branch of `get_dice_fairness`. -/
lemma gdf_fairness_test (m : ChisqModel) (rolls : Rolls) (F : ℕ) (alpha : ℚ) :
    (get_dice_fairness m rolls F alpha).fairness_test
      = if (check_sample_size_validity (observed_counts (flatten_rolls rolls) F) F).valid then
          { interpret_chi_square_result
              (chi_square_test m (observed_counts (flatten_rolls rolls) F) none).2 alpha with
            chi2_stat := some (chi_square_test m (observed_counts (flatten_rolls rolls) F) none).1 }
        else
          { p_value := none
            alpha := alpha
            is_fair := none
            conclusion := (check_sample_size_validity (observed_counts (flatten_rolls rolls) F) F).message
            significance := "Insufficient data for statistical inference"
            confidence_level := none
            chi2_stat := none } := rfl

/-- Unfolding of the validity component of `get_dice_fairness`. -/
lemma gdf_sample_validity (m : ChisqModel) (rolls : Rolls) (F : ℕ) (alpha : ℚ) :
    (get_dice_fairness m rolls F alpha).sample_validity
      = check_sample_size_validity (observed_counts (flatten_rolls rolls) F) F := rfl

/-- Unfolding of the per-position component of `calculate_multi_statistics`. -/
lemma multi_position_stats (rolls : List (List ℤ)) (F : ℕ) :
    (calculate_multi_statistics rolls F).position_stats
      = if rolls ≠ [] ∧ ∀ r ∈ rolls, r.length = (rolls.headD []).length then
          fun pos =>
            if pos < (rolls.headD []).length then
              some (fun face => (rolls.filterMap (fun r => r[pos]?)).count face)
            else none
        else fun _ => none := rfl

/-! ## Claim theorems -/

/-- C3: `check_sample_size_validity` reports `valid` exactly when the total
count reaches `5 * num_categories`, reports the sum as `total` and
`5 * num_categories` as `min_required`, and accepts the boundary case where
the sum equals `5 * num_categories`. -/
theorem check_sample_size_validity_spec (observed : List ℕ) (F : ℕ) :
    ((check_sample_size_validity observed F).valid = true ↔ 5 * F ≤ observed.sum) ∧
    (check_sample_size_validity observed F).total = observed.sum ∧
    (check_sample_size_validity observed F).min_required = 5 * F ∧
    (observed.sum = 5 * F → (check_sample_size_validity observed F).valid = true) := by
  refine ⟨?_, rfl, rfl, ?_⟩
  · simp [check_sample_size_validity, ge_iff_le]
  · intro h
    simp [check_sample_size_validity, h]

/-- Witness for C3 at the boundary input `[5, 5]` with two categories. -/
theorem check_sample_size_validity_spec_witness :
    ((check_sample_size_validity [5, 5] 2).valid = true ↔ 5 * 2 ≤ [5, 5].sum) ∧
    (check_sample_size_validity [5, 5] 2).total = [5, 5].sum ∧
    (check_sample_size_validity [5, 5] 2).min_required = 5 * 2 ∧
    ([5, 5].sum = 5 * 2 → (check_sample_size_validity [5, 5] 2).valid = true) :=
  check_sample_size_validity_spec [5, 5] 2

/-- C10: for `num_dice ≥ 1` and `faces ≥ 2`, `simulate_rolls` returns exactly
`num_rolls` rolls, each of length `num_dice` with every element in
`[1, faces]`, and zero requested rolls yield the empty sequence. -/
theorem simulate_rolls_spec (src : ℕ → ℕ) (num_rolls num_dice faces : ℕ)
    (hdice : 1 ≤ num_dice) (hfaces : 2 ≤ faces) :
    (∃ result, simulate_rolls src num_rolls num_dice faces = some result ∧
        result.length = num_rolls ∧
        ∀ roll ∈ result, roll.length = num_dice ∧
          ∀ v ∈ roll, 1 ≤ v ∧ v ≤ (faces : ℤ)) ∧
    simulate_rolls src 0 num_dice faces = some [] := by
  have hf0 : faces ≠ 0 := by omega
  have hfz : ((faces : ℤ)) ≠ 0 := Int.natCast_ne_zero.mpr hf0
  have hroll : ∀ base, roll_dice src base num_dice faces
      = some ((List.range num_dice).map
          (fun j => 1 + ((src (base + j) : ℤ) % (faces : ℤ)))) := by
    intro base
    exact list_mapM_eq_some _ _ _ (fun j _ => by simp [randint1, hf0])
  constructor
  · refine ⟨(List.range num_rolls).map (fun i => (List.range num_dice).map
        (fun j => 1 + ((src (i * num_dice + j) : ℤ) % (faces : ℤ)))), ?_, ?_, ?_⟩
    · exact list_mapM_eq_some _ _ _ (fun i _ => hroll (i * num_dice))
    · simp
    · intro roll hmem
      obtain ⟨i, _, rfl⟩ := List.mem_map.mp hmem
      refine ⟨by simp, ?_⟩
      intro v hv
      obtain ⟨j, _, rfl⟩ := List.mem_map.mp hv
      have h1 : (0 : ℤ) ≤ (src (i * num_dice + j) : ℤ) % (faces : ℤ) :=
        Int.emod_nonneg _ hfz
      have h2 : (src (i * num_dice + j) : ℤ) % (faces : ℤ) < (faces : ℤ) :=
        Int.emod_lt_of_pos _ (by exact_mod_cast Nat.pos_of_ne_zero hf0)
      constructor <;> omega
  · rfl

/-- Witness for C10 with a concrete entropy source, three rolls of two
six-sided dice. -/
theorem simulate_rolls_spec_witness :
    (∃ result, simulate_rolls (fun k => k) 3 2 6 = some result ∧
        result.length = 3 ∧
        ∀ roll ∈ result, roll.length = 2 ∧
          ∀ v ∈ roll, 1 ≤ v ∧ v ≤ ((6 : ℕ) : ℤ)) ∧
    simulate_rolls (fun k => k) 0 2 6 = some [] :=
  simulate_rolls_spec (fun k => k) 3 2 6 (by decide) (by decide)

/-- C5 (amended): the entry points perform no configuration validation.
With `num_faces = 0` the fairness analysis still runs to completion: the
observed list is empty, the sample is judged valid (`0 ≥ 0`) and a definite
verdict `is_fair = (1.0 ≥ alpha)` is produced for any `alpha`.
`simulate_rolls` accepts `num_dice = 0` and returns `num_rolls` empty rolls
for any `faces`; the only failure is the uncaught `ValueError` raised by
`random.randint` when `faces < 1` and at least one die is actually drawn. -/
theorem no_config_validation (m : ChisqModel) (rolls : Rolls) (alpha : ℚ)
    (src : ℕ → ℕ) (n d faces : ℕ) :
    (get_dice_fairness m rolls 0 alpha).sample_validity.valid = true ∧
    (get_dice_fairness m rolls 0 alpha).fairness_test.is_fair
        = some (decide ((1 : ℚ) ≥ alpha)) ∧
    simulate_rolls src n 0 faces = some (List.replicate n []) ∧
    (1 ≤ n → 1 ≤ d → simulate_rolls src n d 0 = none) := by
  refine ⟨rfl, rfl, ?_, ?_⟩
  · have h := list_mapM_eq_some (List.range n)
      (fun i => roll_dice src (i * 0) 0 faces) (fun _ => ([] : List ℤ))
      (fun i _ => rfl)
    rw [simulate_rolls, h, List.map_const', List.length_range]
  · intro hn hd
    obtain ⟨n1, rfl⟩ : ∃ k, n = k + 1 := ⟨n - 1, by omega⟩
    obtain ⟨d1, rfl⟩ : ∃ k, d = k + 1 := ⟨d - 1, by omega⟩
    have hrd : roll_dice src 0 (d1 + 1) 0 = none := by
      rw [roll_dice, List.range_succ_eq_map]
      exact list_mapM_cons_none _ _ _ (by simp [randint1])
    rw [simulate_rolls, List.range_succ_eq_map]
    refine list_mapM_cons_none _ _ _ ?_
    simpa using hrd

/-- Counterexample to C5 as stated: an invalid configuration
(`num_faces = 0 < 2` for the analysis, `num_dice = 0 < 1` for the simulator)
is not rejected with an error; the analysis returns a completed report with
a definite fairness verdict, and the simulator returns three empty rolls. -/
theorem config_not_rejected :
    (get_dice_fairness chisq_model_default
        (Rolls.single [1, 2, 3]) 0 (1 / 2)).fairness_test.is_fair = some true ∧
    simulate_rolls (fun _ => 0) 3 0 6 = some [[], [], []] := by
  constructor
  · have h1 : (get_dice_fairness chisq_model_default
        (Rolls.single [1, 2, 3]) 0 (1 / 2)).fairness_test.is_fair
          = some (decide ((1 : ℚ) ≥ 1 / 2)) := rfl
    rw [h1, decide_eq_true (show (1 : ℚ) ≥ 1 / 2 by norm_num)]
  · decide

/-- Witness for C5's amended theorem at a concrete model, history, source
and sizes. -/
theorem no_config_validation_witness :
    (get_dice_fairness chisq_model_default (Rolls.single [1]) 0 (1 / 2)).sample_validity.valid = true ∧
    (get_dice_fairness chisq_model_default (Rolls.single [1]) 0 (1 / 2)).fairness_test.is_fair
        = some (decide ((1 : ℚ) ≥ 1 / 2)) ∧
    simulate_rolls (fun _ => 0) 2 0 6 = some (List.replicate 2 []) ∧
    (1 ≤ 2 → 1 ≤ 3 → simulate_rolls (fun _ => 0) 2 3 0 = none) :=
  no_config_validation chisq_model_default (Rolls.single [1]) (1 / 2) (fun _ => 0) 2 3 6

/-- C4 (amended): a raising library call is caught inside `chi_square_test`,
which degrades it to `(0, 1.0)`; interpreting that fallback p-value yields a
definite verdict `is_fair = true` (for any `alpha ≤ 1`), not an undefined
insufficient-data verdict.  Moreover the uniform-null call that
`get_dice_fairness` makes never raises, because its expected frequencies are
positive and sum to the observed total. -/
theorem chi_square_failure_fallback (m : ChisqModel) (observed : List ℕ)
    (probs : List ℚ) (alpha : ℚ) :
    (m.fails (observed.map (fun (n : ℕ) => (n : ℚ)))
        (probs.map (fun p => (observed.sum : ℚ) * p)) = true →
      chi_square_test m observed (some probs) = (0, 1)) ∧
    (alpha ≤ 1 → (interpret_chi_square_result 1 alpha).is_fair = some true) ∧
    (0 < observed.sum →
      scipy_chisquare m (observed.map (fun (n : ℕ) => (n : ℚ)))
        ((List.replicate observed.length (1 / (observed.length : ℚ))).map
          (fun p => (observed.sum : ℚ) * p)) ≠ none) := by
  refine ⟨?_, ?_, ?_⟩
  · intro hfail
    by_cases h0 : observed.sum = 0
    · simp [chi_square_test, h0]
    · simp only [chi_square_test, scipy_chisquare, h0, if_false, Option.getD_some]
      rw [hfail]
      rfl
  · intro hle
    have h1 : (1 : ℚ) ≥ alpha := hle
    simp [interpret_chi_square_result, h1]
  · intro hpos
    have hne : observed ≠ [] := by
      intro h
      rw [h] at hpos
      simp at hpos
    have hlen : observed.length ≠ 0 := fun h => hne (List.eq_nil_of_length_eq_zero h)
    have hlenQ : ((observed.length : ℚ)) ≠ 0 := Nat.cast_ne_zero.mpr hlen
    have hTQ : (0 : ℚ) < (observed.sum : ℚ) := by exact_mod_cast hpos
    have hsum : ((List.replicate observed.length (1 / (observed.length : ℚ))).map
        (fun p => (observed.sum : ℚ) * p)).sum = (observed.sum : ℚ) := by
      rw [List.map_replicate, List.sum_replicate, nsmul_eq_mul]
      field_simp
    have hobs_sum : (observed.map (fun (n : ℕ) => (n : ℚ))).sum = (observed.sum : ℚ) :=
      (Nat.cast_list_sum observed).symm
    have hfails : m.fails (observed.map (fun (n : ℕ) => (n : ℚ)))
        ((List.replicate observed.length (1 / (observed.length : ℚ))).map
          (fun p => (observed.sum : ℚ) * p)) = false := by
      refine m.no_fail _ _ (by rw [hobs_sum, hsum]) ?_
      intro x hx
      rw [List.map_replicate] at hx
      rw [List.eq_of_mem_replicate hx]
      have hlpos : (0 : ℚ) < (observed.length : ℚ) :=
        lt_of_le_of_ne (Nat.cast_nonneg _) (Ne.symm hlenQ)
      positivity
    simp only [scipy_chisquare]
    rw [hfails]
    simp

/-- Counterexample to C4 as stated: at observed counts `[10, 10]` with
expected probabilities `[0.7, 0.2]` the library call raises (the frequency
sums `20` and `18` disagree); the caught failure yields `(0, 1.0)`, whose
interpretation is the definite verdict `is_fair = true` — not an undefined
insufficient-data verdict. -/
theorem chi_square_failure_fair_verdict :
    chi_square_test chisq_model_default [10, 10] (some [7 / 10, 1 / 5]) = (0, 1) ∧
    (interpret_chi_square_result 1 (1 / 20)).is_fair = some true ∧
    (interpret_chi_square_result 1 (1 / 20)).is_fair ≠ none := by
  have hfair : (interpret_chi_square_result 1 (1 / 20)).is_fair
      = some (decide ((1 : ℚ) ≥ 1 / 20)) := rfl
  have hdec := decide_eq_true (show (1 : ℚ) ≥ 1 / 20 by norm_num)
  have hfail : chisq_model_default.fails
      (([10, 10] : List ℕ).map (fun (n : ℕ) => (n : ℚ)))
      (([7 / 10, 1 / 5] : List ℚ).map (fun p => ((([10, 10] : List ℕ).sum : ℕ) : ℚ) * p))
        = true := by
    simp only [chisq_model_default, List.map_cons, List.map_nil, List.sum_cons, List.sum_nil]
    rw [decide_eq_true]
    norm_num
  refine ⟨?_, ?_, ?_⟩
  · simp only [chi_square_test, scipy_chisquare, Option.getD_some]
    rw [if_neg (by norm_num : ¬([10, 10] : List ℕ).sum = 0), hfail]
    rfl
  · rw [hfair, hdec]
  · rw [hfair, hdec]
    simp

/-- Witness for C4's amended theorem at a concrete model and inputs. -/
theorem chi_square_failure_fallback_witness :
    (chisq_model_default.fails ([10, 10].map (fun n => ((n : ℕ) : ℚ)))
        ([7 / 10, 1 / 5].map (fun p => (([10, 10].sum : ℕ) : ℚ) * p)) = true →
      chi_square_test chisq_model_default [10, 10] (some [7 / 10, 1 / 5]) = (0, 1)) ∧
    ((1 : ℚ) / 20 ≤ 1 → (interpret_chi_square_result 1 (1 / 20)).is_fair = some true) ∧
    (0 < [10, 10].sum →
      scipy_chisquare chisq_model_default ([10, 10].map (fun n => ((n : ℕ) : ℚ)))
        ((List.replicate ([10, 10] : List ℕ).length (1 / ((([10, 10] : List ℕ).length : ℕ) : ℚ))).map
          (fun p => (([10, 10].sum : ℕ) : ℚ) * p)) ≠ none) :=
  chi_square_failure_fallback chisq_model_default [10, 10] [7 / 10, 1 / 5] (1 / 20)

/-- C6 (amended): the percentage mappings of `get_dice_fairness` and
`calculate_multi_statistics` are defined for every face in `1..F`, with
value `count / total * 100` when the total is positive and `0.0` when it is
zero.  `calculate_statistics`, however, keys its percentages only by the
faces that actually occur: an observed face maps to `count / total * 100`
(its total is then necessarily positive, so no division by zero occurs) and
an unobserved face is absent rather than `0.0`. -/
theorem percentages_spec (m : ChisqModel) (rolls : Rolls) (F : ℕ) (alpha : ℚ)
    (rollsM : List (List ℤ)) (rollsS : List ℤ) (face : ℤ) :
    (1 ≤ face → face ≤ (F : ℤ) →
      (get_dice_fairness m rolls F alpha).face_percentages face
        = some (if 0 < (flatten_rolls rolls).length then
            ((flatten_rolls rolls).count face : ℚ) / ((flatten_rolls rolls).length : ℚ) * 100
          else 0)) ∧
    (1 ≤ face → face ≤ (F : ℤ) →
      (calculate_multi_statistics rollsM F).percentages face
        = some (if 0 < rollsM.flatten.length then
            (rollsM.flatten.count face : ℚ) / (rollsM.flatten.length : ℚ) * 100
          else 0)) ∧
    (face ∈ rollsS →
      0 < rollsS.length ∧
      (calculate_statistics rollsS).percentages face
        = some ((rollsS.count face : ℚ) / (rollsS.length : ℚ) * 100)) ∧
    (face ∉ rollsS → (calculate_statistics rollsS).percentages face = none) := by
  refine ⟨?_, ?_, ?_, ?_⟩
  · intro h1 h2
    show (if 1 ≤ face ∧ face ≤ (F : ℤ) then _ else none) = _
    rw [if_pos ⟨h1, h2⟩]
  · intro h1 h2
    show (if 1 ≤ face ∧ face ≤ (F : ℤ) then _ else none) = _
    rw [if_pos ⟨h1, h2⟩]
  · intro hmem
    have hlen : 0 < rollsS.length := List.length_pos_of_mem hmem
    have hc : rollsS.count face ≠ 0 := Nat.pos_iff_ne_zero.mp (List.count_pos_iff.mpr hmem)
    refine ⟨hlen, ?_⟩
    show (if rollsS.count face ≠ 0 then _ else none) = _
    rw [if_pos hc, if_pos hlen]
  · intro hmem
    have hc : rollsS.count face = 0 := List.count_eq_zero.mpr hmem
    show (if rollsS.count face ≠ 0 then _ else none) = _
    rw [if_neg (by simp [hc])]

/-- Counterexample to C6 as stated: for the single-die aggregation of the
one-roll history `[1]` with `F = 2` faces, the total is positive but face
`2` (count 0) is absent from the percentages mapping instead of being
`0.0 = 0/1*100`. -/
theorem calculate_statistics_missing_face :
    (calculate_statistics [(1 : ℤ)]).percentages 2 = none ∧
    (calculate_statistics [(1 : ℤ)]).percentages 2 ≠ some (((([(1 : ℤ)].count (2 : ℤ)) : ℚ) / (([(1 : ℤ)].length : ℚ))) * 100) := by
  refine ⟨rfl, by simp [calculate_statistics]⟩

/-- Witness for C6's amended theorem at concrete histories and face 1. -/
theorem percentages_spec_witness :
    (1 ≤ (1 : ℤ) → (1 : ℤ) ≤ ((2 : ℕ) : ℤ) →
      (get_dice_fairness chisq_model_default (Rolls.single [1]) 2 (1 / 2)).face_percentages 1
        = some (if 0 < (flatten_rolls (Rolls.single [1])).length then
            ((flatten_rolls (Rolls.single [1])).count (1 : ℤ) : ℚ)
              / ((flatten_rolls (Rolls.single [1])).length : ℚ) * 100
          else 0)) ∧
    (1 ≤ (1 : ℤ) → (1 : ℤ) ≤ ((2 : ℕ) : ℤ) →
      (calculate_multi_statistics [[1]] 2).percentages 1
        = some (if 0 < ([[1]] : List (List ℤ)).flatten.length then
            (([[1]] : List (List ℤ)).flatten.count (1 : ℤ) : ℚ)
              / (([[1]] : List (List ℤ)).flatten.length : ℚ) * 100
          else 0)) ∧
    ((1 : ℤ) ∈ ([1] : List ℤ) →
      0 < ([1] : List ℤ).length ∧
      (calculate_statistics [1]).percentages 1
        = some ((([1] : List ℤ).count (1 : ℤ) : ℚ) / (([1] : List ℤ).length : ℚ) * 100)) ∧
    ((1 : ℤ) ∉ ([1] : List ℤ) → (calculate_statistics [1]).percentages 1 = none) :=
  percentages_spec chisq_model_default (Rolls.single [1]) 2 (1 / 2) [[1]] [1] 1

/-- C7: permuting the roll history leaves the face counts, the percentages,
the sample-validity report and the sum-distribution mapping unchanged. -/
theorem aggregation_perm_invariant (m : ChisqModel) (F : ℕ) (alpha : ℚ)
    (rolls1 rolls2 : List (List ℤ)) (h : rolls1.Perm rolls2) :
    (get_dice_fairness m (Rolls.multi rolls1) F alpha).face_counts
      = (get_dice_fairness m (Rolls.multi rolls2) F alpha).face_counts ∧
    (get_dice_fairness m (Rolls.multi rolls1) F alpha).face_percentages
      = (get_dice_fairness m (Rolls.multi rolls2) F alpha).face_percentages ∧
    (get_dice_fairness m (Rolls.multi rolls1) F alpha).sample_validity
      = (get_dice_fairness m (Rolls.multi rolls2) F alpha).sample_validity ∧
    sum_distribution rolls1 = sum_distribution rolls2 := by
  have hflat : rolls1.flatten.Perm rolls2.flatten := h.flatten
  have hcount : ∀ v : ℤ, rolls1.flatten.count v = rolls2.flatten.count v :=
    fun v => hflat.count_eq v
  have hlen : rolls1.flatten.length = rolls2.flatten.length := hflat.length_eq
  have hobs : observed_counts rolls1.flatten F = observed_counts rolls2.flatten F := by
    unfold observed_counts
    exact List.map_congr_left (fun i _ => hcount _)
  refine ⟨?_, ?_, ?_, ?_⟩
  · show (fun v => rolls1.flatten.count v) = (fun v => rolls2.flatten.count v)
    funext v
    exact hcount v
  · show (fun i => if 1 ≤ i ∧ i ≤ (F : ℤ) then
        some (if rolls1.flatten.length > 0 then
          (rolls1.flatten.count i : ℚ) / (rolls1.flatten.length : ℚ) * 100 else 0)
      else none) = _
    funext i
    simp only [hcount, hlen]
    rfl
  · show check_sample_size_validity (observed_counts rolls1.flatten F) F = _
    rw [hobs]
    rfl
  · funext s
    exact (h.map List.sum).count_eq s

/-- Witness for C7 at a concrete permuted pair of multi-die histories. -/
theorem aggregation_perm_invariant_witness :
    (get_dice_fairness chisq_model_default (Rolls.multi [[1, 2], [3]]) 3 (1 / 2)).face_counts
      = (get_dice_fairness chisq_model_default (Rolls.multi [[3], [1, 2]]) 3 (1 / 2)).face_counts ∧
    (get_dice_fairness chisq_model_default (Rolls.multi [[1, 2], [3]]) 3 (1 / 2)).face_percentages
      = (get_dice_fairness chisq_model_default (Rolls.multi [[3], [1, 2]]) 3 (1 / 2)).face_percentages ∧
    (get_dice_fairness chisq_model_default (Rolls.multi [[1, 2], [3]]) 3 (1 / 2)).sample_validity
      = (get_dice_fairness chisq_model_default (Rolls.multi [[3], [1, 2]]) 3 (1 / 2)).sample_validity ∧
    sum_distribution [[1, 2], [3]] = sum_distribution [[3], [1, 2]] :=
  aggregation_perm_invariant chisq_model_default 3 (1 / 2) [[1, 2], [3]] [[3], [1, 2]]
    (by decide)

/-- In a history whose rolls all have length `N`, reading position
`pos < N` with the guarded `roll[pos]` access of
`calculate_multi_statistics` is plain indexing. -/
lemma filterMap_getElem_uniform (rolls : List (List ℤ)) (N pos : ℕ)
    (harity : ∀ r ∈ rolls, r.length = N) (hpos : pos < N) :
    rolls.filterMap (fun r => r[pos]?) = rolls.map (fun r => r.getD pos 0) := by
  induction rolls with
  | nil => rfl
  | cons a t ih =>
    have ha : pos < a.length := by
      rw [harity a (List.mem_cons_self a t)]
      exact hpos
    rw [List.filterMap_cons, List.map_cons, List.getElem?_eq_getElem ha,
      ih (fun r hr => harity r (List.mem_cons_of_mem a hr))]
    simp [List.getD_eq_getElem?_getD, List.getElem?_eq_getElem ha]

/-- C8: for a nonempty history whose rolls all have arity `N`, the
per-position mapping is defined exactly on positions `0..N-1`, position
`pos` counting the values `roll[pos]` across all rolls; a mixed-arity
history yields an empty mapping (no coercion to a common arity). -/
theorem per_position_counts_spec (rolls : List (List ℤ)) (F N pos : ℕ) :
    (rolls ≠ [] → (∀ r ∈ rolls, r.length = N) →
      ((pos < N →
          (calculate_multi_statistics rolls F).position_stats pos
            = some (fun face => (rolls.map (fun r => r.getD pos 0)).count face)) ∧
        (N ≤ pos →
          (calculate_multi_statistics rolls F).position_stats pos = none))) ∧
    ((∃ r1 ∈ rolls, ∃ r2 ∈ rolls, r1.length ≠ r2.length) →
      (calculate_multi_statistics rolls F).position_stats pos = none) := by
  constructor
  · intro hne harity
    have hhead : (rolls.headD []).length = N := by
      cases rolls with
      | nil => exact absurd rfl hne
      | cons a t => exact harity a (List.mem_cons_self a t)
    have hC : rolls ≠ [] ∧ ∀ r ∈ rolls, r.length = (rolls.headD []).length :=
      ⟨hne, fun r hr => by rw [harity r hr, hhead]⟩
    constructor
    · intro hlt
      rw [multi_position_stats, if_pos hC, if_pos (by rw [hhead]; exact hlt),
        filterMap_getElem_uniform rolls N pos harity hlt]
    · intro hge
      rw [multi_position_stats, if_pos hC, if_neg (by rw [hhead]; omega)]
  · rintro ⟨r1, h1, r2, h2, hne12⟩
    have hnotC : ¬(rolls ≠ [] ∧ ∀ r ∈ rolls, r.length = (rolls.headD []).length) := by
      rintro ⟨-, hall⟩
      exact hne12 ((hall r1 h1).trans (hall r2 h2).symm)
    rw [multi_position_stats, if_neg hnotC]

/-- Witness for C8: a uniform two-dice history and a mixed-arity history. -/
theorem per_position_counts_spec_witness :
    ((([[1, 2], [3, 4]] : List (List ℤ)) ≠ [] →
      (∀ r ∈ ([[1, 2], [3, 4]] : List (List ℤ)), r.length = 2) →
      ((0 < 2 →
          (calculate_multi_statistics [[1, 2], [3, 4]] 6).position_stats 0
            = some (fun face => (([[1, 2], [3, 4]] : List (List ℤ)).map
                (fun r => r.getD 0 0)).count face)) ∧
        (2 ≤ 0 →
          (calculate_multi_statistics [[1, 2], [3, 4]] 6).position_stats 0 = none))) ∧
      ((∃ r1 ∈ ([[1, 2], [3, 4]] : List (List ℤ)), ∃ r2 ∈ ([[1, 2], [3, 4]] : List (List ℤ)),
          r1.length ≠ r2.length) →
        (calculate_multi_statistics [[1, 2], [3, 4]] 6).position_stats 0 = none)) ∧
    ((([[1], [2, 3]] : List (List ℤ)) ≠ [] →
      (∀ r ∈ ([[1], [2, 3]] : List (List ℤ)), r.length = 1) →
      ((0 < 1 →
          (calculate_multi_statistics [[1], [2, 3]] 6).position_stats 0
            = some (fun face => (([[1], [2, 3]] : List (List ℤ)).map
                (fun r => r.getD 0 0)).count face)) ∧
        (1 ≤ 0 →
          (calculate_multi_statistics [[1], [2, 3]] 6).position_stats 0 = none))) ∧
      ((∃ r1 ∈ ([[1], [2, 3]] : List (List ℤ)), ∃ r2 ∈ ([[1], [2, 3]] : List (List ℤ)),
          r1.length ≠ r2.length) →
        (calculate_multi_statistics [[1], [2, 3]] 6).position_stats 0 = none)) :=
  ⟨per_position_counts_spec [[1, 2], [3, 4]] 6 2 0,
   per_position_counts_spec [[1], [2, 3]] 6 1 0⟩

/-- The chi-square statistic against a constant expected vector is the sum
of the per-category terms. -/
lemma chi2_statistic_replicate (obs : List ℚ) (e : ℚ) :
    chi2_statistic obs (List.replicate obs.length e)
      = (obs.map (fun o => (o - e) ^ 2 / e)).sum := by
  induction obs with
  | nil => rfl
  | cons a t ih =>
    simp only [chi2_statistic, List.length_cons, List.replicate_succ,
      List.zip_cons_cons, List.map_cons, List.sum_cons] at ih ⊢
    rw [ih]

/-- Evaluation of `chi_square_test` on a positive-total sample under the
uniform null hypothesis: the library call succeeds and returns the
chi-square statistic together with its upper-tail probability. -/
lemma chi_square_test_uniform_eq (m : ChisqModel) (counts : List ℕ)
    (hT : 0 < counts.sum) :
    chi_square_test m counts none
      = ((counts.map (fun (o : ℕ) =>
            ((o : ℚ) - (counts.sum : ℚ) / (counts.length : ℚ)) ^ 2
              / ((counts.sum : ℚ) / (counts.length : ℚ)))).sum,
         m.sf (counts.map (fun (o : ℕ) =>
            ((o : ℚ) - (counts.sum : ℚ) / (counts.length : ℚ)) ^ 2
              / ((counts.sum : ℚ) / (counts.length : ℚ)))).sum (counts.length - 1)) := by
  have hT0 : counts.sum ≠ 0 := Nat.pos_iff_ne_zero.mp hT
  have hne : counts ≠ [] := by
    intro h
    rw [h] at hT
    simp at hT
  have hlen : counts.length ≠ 0 := fun h => hne (List.eq_nil_of_length_eq_zero h)
  have hlenQ : ((counts.length : ℚ)) ≠ 0 := Nat.cast_ne_zero.mpr hlen
  have hlpos : (0 : ℚ) < (counts.length : ℚ) :=
    lt_of_le_of_ne (Nat.cast_nonneg _) (Ne.symm hlenQ)
  have hTQ : (0 : ℚ) < (counts.sum : ℚ) := by exact_mod_cast hT
  have hexp : (List.replicate counts.length (1 / (counts.length : ℚ))).map
      (fun p => (counts.sum : ℚ) * p)
        = List.replicate counts.length ((counts.sum : ℚ) / (counts.length : ℚ)) := by
    rw [List.map_replicate]
    congr 1
    field_simp
  have hobs_sum : (counts.map (fun (n : ℕ) => (n : ℚ))).sum = (counts.sum : ℚ) :=
    (Nat.cast_list_sum counts).symm
  have hsum_exp : (List.replicate counts.length
      ((counts.sum : ℚ) / (counts.length : ℚ))).sum = (counts.sum : ℚ) := by
    rw [List.sum_replicate, nsmul_eq_mul]
    field_simp
  have hfails : m.fails (counts.map (fun (n : ℕ) => (n : ℚ)))
      (List.replicate counts.length ((counts.sum : ℚ) / (counts.length : ℚ))) = false := by
    refine m.no_fail _ _ (by rw [hobs_sum, hsum_exp]) ?_
    intro x hx
    rw [List.eq_of_mem_replicate hx]
    positivity
  have hrep : List.replicate counts.length ((counts.sum : ℚ) / (counts.length : ℚ))
      = List.replicate (counts.map (fun (n : ℕ) => (n : ℚ))).length
          ((counts.sum : ℚ) / (counts.length : ℚ)) := by
    rw [List.length_map]
  simp only [chi_square_test, scipy_chisquare, hT0, if_false, Option.getD_none, hexp]
  rw [hfails]
  simp only [Bool.false_eq_true, if_false]
  rw [hrep, chi2_statistic_replicate, List.map_map, List.length_map]
  rfl

/-- C2: under the uniform null hypothesis on a positive-total sample over
`F ≥ 2` categories, `chi_square_test` returns the statistic
`Σ (observed - total/F)² / (total/F)`, which is nonnegative; the p-value is
the upper-tail probability of that statistic at `F - 1` degrees of freedom,
lies in `[0, 1]`, and exactly uniform counts give statistic `0` and
p-value `1.0`. -/
theorem chi_square_test_uniform_props (m : ChisqModel) (counts : List ℕ)
    (hF : 2 ≤ counts.length) (hT : 0 < counts.sum) :
    (chi_square_test m counts none).1
        = (counts.map (fun (o : ℕ) =>
            ((o : ℚ) - (counts.sum : ℚ) / (counts.length : ℚ)) ^ 2
              / ((counts.sum : ℚ) / (counts.length : ℚ)))).sum ∧
    0 ≤ (chi_square_test m counts none).1 ∧
    (chi_square_test m counts none).2
        = m.sf (chi_square_test m counts none).1 (counts.length - 1) ∧
    0 ≤ (chi_square_test m counts none).2 ∧
    (chi_square_test m counts none).2 ≤ 1 ∧
    ((∀ c ∈ counts, (c : ℚ) = (counts.sum : ℚ) / (counts.length : ℚ)) →
      (chi_square_test m counts none).1 = 0 ∧ (chi_square_test m counts none).2 = 1) := by
  have heval := chi_square_test_uniform_eq m counts hT
  have hlen : counts.length ≠ 0 := by
    intro h
    omega
  have hlpos : (0 : ℚ) < (counts.length : ℚ) := by
    exact_mod_cast Nat.pos_of_ne_zero hlen
  have hTQ : (0 : ℚ) < (counts.sum : ℚ) := by exact_mod_cast hT
  have hepos : (0 : ℚ) < (counts.sum : ℚ) / (counts.length : ℚ) := by positivity
  have hstat_nonneg : 0 ≤ (counts.map (fun (o : ℕ) =>
      ((o : ℚ) - (counts.sum : ℚ) / (counts.length : ℚ)) ^ 2
        / ((counts.sum : ℚ) / (counts.length : ℚ)))).sum := by
    refine List.sum_nonneg ?_
    intro x hx
    obtain ⟨o, -, rfl⟩ := List.mem_map.mp hx
    exact div_nonneg (sq_nonneg _) (le_of_lt hepos)
  refine ⟨by rw [heval], by rw [heval]; exact hstat_nonneg, by rw [heval],
    by rw [heval]; exact m.sf_nonneg _ _, by rw [heval]; exact m.sf_le_one _ _, ?_⟩
  · intro huniform
    have hzero : (counts.map (fun (o : ℕ) =>
        ((o : ℚ) - (counts.sum : ℚ) / (counts.length : ℚ)) ^ 2
          / ((counts.sum : ℚ) / (counts.length : ℚ)))).sum = 0 := by
      refine List.sum_eq_zero ?_
      intro x hx
      obtain ⟨o, ho, rfl⟩ := List.mem_map.mp hx
      rw [huniform o ho]
      simp
    constructor
    · rw [heval]
      exact hzero
    · rw [heval]
      simp only [hzero]
      exact m.sf_zero _

/-- Witness for C2 at the uniform sample `[10, 10, 10]` over three
categories with the concrete library model. -/
theorem chi_square_test_uniform_props_witness :
    (chi_square_test chisq_model_default [10, 10, 10] none).1
        = (([10, 10, 10] : List ℕ).map (fun (o : ℕ) =>
            ((o : ℚ) - (([10, 10, 10] : List ℕ).sum : ℚ) / ((([10, 10, 10] : List ℕ).length : ℕ) : ℚ)) ^ 2
              / ((([10, 10, 10] : List ℕ).sum : ℚ) / ((([10, 10, 10] : List ℕ).length : ℕ) : ℚ)))).sum ∧
    0 ≤ (chi_square_test chisq_model_default [10, 10, 10] none).1 ∧
    (chi_square_test chisq_model_default [10, 10, 10] none).2
        = chisq_model_default.sf (chi_square_test chisq_model_default [10, 10, 10] none).1
            (([10, 10, 10] : List ℕ).length - 1) ∧
    0 ≤ (chi_square_test chisq_model_default [10, 10, 10] none).2 ∧
    (chi_square_test chisq_model_default [10, 10, 10] none).2 ≤ 1 ∧
    ((∀ c ∈ ([10, 10, 10] : List ℕ),
        (c : ℚ) = (([10, 10, 10] : List ℕ).sum : ℚ) / ((([10, 10, 10] : List ℕ).length : ℕ) : ℚ)) →
      (chi_square_test chisq_model_default [10, 10, 10] none).1 = 0 ∧
      (chi_square_test chisq_model_default [10, 10, 10] none).2 = 1) :=
  chi_square_test_uniform_props chisq_model_default [10, 10, 10] (by decide) (by decide)

lemma sum_map_add_nat (L : List ℕ) (f g : ℕ → ℕ) :
    (L.map (fun i => f i + g i)).sum = (L.map f).sum + (L.map g).sum := by
  induction L with
  | nil => rfl
  | cons a t ih =>
    simp only [List.map_cons, List.sum_cons, ih]
    omega

/-- A face above the range `1..F` is hit by no index of `range F`. -/
lemma range_indicator_sum_zero (F : ℕ) (a : ℤ) (h : (F : ℤ) < a) :
    ((List.range F).map (fun (i : ℕ) => if a = (i : ℤ) + 1 then 1 else 0)).sum = 0 := by
  induction F with
  | zero => rfl
  | succ n ih =>
    rw [List.range_succ, List.map_append, List.sum_append]
    have h1 : (n : ℤ) < a := by
      push_cast at h
      omega
    rw [ih h1]
    have h2 : a ≠ (n : ℤ) + 1 := by
      push_cast at h
      omega
    simp [h2]

/-- A face in the range `1..F` is hit by exactly one index of `range F`. -/
lemma range_indicator_sum_one (F : ℕ) (a : ℤ) (h1 : 1 ≤ a) (h2 : a ≤ (F : ℤ)) :
    ((List.range F).map (fun (i : ℕ) => if a = (i : ℤ) + 1 then 1 else 0)).sum = 1 := by
  induction F with
  | zero =>
    exfalso
    push_cast at h2
    omega
  | succ n ih =>
    rw [List.range_succ, List.map_append, List.sum_append]
    by_cases ha : a = (n : ℤ) + 1
    · rw [range_indicator_sum_zero n a (by omega)]
      simp [ha]
    · have h2n : a ≤ (n : ℤ) := by
        push_cast at h2
        omega
      rw [ih h2n]
      simp [ha]

/-- When every value lies in `1..F`, the per-face counts over `1..F`
partition the flattened history. -/
lemma observed_counts_sum (flat : List ℤ) (F : ℕ)
    (h : ∀ v ∈ flat, 1 ≤ v ∧ v ≤ (F : ℤ)) :
    (observed_counts flat F).sum = flat.length := by
  induction flat with
  | nil => simp [observed_counts]
  | cons a t ih =>
    have ha := h a (List.mem_cons_self a t)
    have hobs : observed_counts (a :: t) F
        = (List.range F).map
            (fun (i : ℕ) => t.count ((i : ℤ) + 1) + if a = (i : ℤ) + 1 then 1 else 0) := by
      unfold observed_counts
      refine List.map_congr_left (fun i _ => ?_)
      simp [List.count_cons]
    rw [hobs, sum_map_add_nat]
    have ht : ((List.range F).map (fun (i : ℕ) => t.count ((i : ℤ) + 1))).sum = t.length :=
      ih (fun v hv => h v (List.mem_cons_of_mem a hv))
    rw [ht, range_indicator_sum_one F a ha.1 ha.2]
    simp

/-- C9: the per-face counts over `1..F` sum to the total number of
individual die outcomes; the `total` reported by the validity check equals
`total_rolls` (the flattened length), and a multi-die history contributes
the lengths of its rolls. -/
theorem face_counts_sum_invariant (m : ChisqModel) (rolls : Rolls) (F : ℕ) (alpha : ℚ)
    (h : ∀ v ∈ flatten_rolls rolls, 1 ≤ v ∧ v ≤ (F : ℤ)) :
    (observed_counts (flatten_rolls rolls) F).sum = (flatten_rolls rolls).length ∧
    (get_dice_fairness m rolls F alpha).sample_validity.total
      = (get_dice_fairness m rolls F alpha).total_rolls ∧
    ∀ rs : List (List ℤ),
      (flatten_rolls (Rolls.multi rs)).length = (rs.map List.length).sum := by
  refine ⟨observed_counts_sum _ _ h, ?_, ?_⟩
  · show (observed_counts (flatten_rolls rolls) F).sum = (flatten_rolls rolls).length
    exact observed_counts_sum _ _ h
  · intro rs
    simp [flatten_rolls]

/-- Witness for C9 at a mixed-arity multi-die history over three faces. -/
theorem face_counts_sum_invariant_witness :
    (observed_counts (flatten_rolls (Rolls.multi [[1, 2], [3, 3]])) 3).sum
      = (flatten_rolls (Rolls.multi [[1, 2], [3, 3]])).length ∧
    (get_dice_fairness chisq_model_default (Rolls.multi [[1, 2], [3, 3]]) 3 (1 / 2)).sample_validity.total
      = (get_dice_fairness chisq_model_default (Rolls.multi [[1, 2], [3, 3]]) 3 (1 / 2)).total_rolls ∧
    ∀ rs : List (List ℤ),
      (flatten_rolls (Rolls.multi rs)).length = (rs.map List.length).sum :=
  face_counts_sum_invariant chisq_model_default (Rolls.multi [[1, 2], [3, 3]]) 3 (1 / 2)
    (by decide)

/-- C1: the fairness verdict is tri-state.  When the observed total over
faces `1..F` is below `5 * F` the report carries `is_fair = none`,
`p_value = none` and the descriptive insufficient-data message as its
conclusion; when the total reaches `5 * F` the verdict is exactly
`is_fair = (p_value ≥ alpha)`, ties deciding fair. -/
theorem get_dice_fairness_tri_state (m : ChisqModel) (rolls : Rolls) (F : ℕ)
    (alpha : ℚ) (hF : 2 ≤ F) (ha1 : 0 < alpha) (ha2 : alpha < 1) :
    ((get_dice_fairness m rolls F alpha).sample_validity.total < 5 * F →
      (get_dice_fairness m rolls F alpha).fairness_test.is_fair = none ∧
      (get_dice_fairness m rolls F alpha).fairness_test.p_value = none ∧
      (get_dice_fairness m rolls F alpha).fairness_test.conclusion
        = insufficient_message (5 * F)
            (get_dice_fairness m rolls F alpha).sample_validity.total) ∧
    (5 * F ≤ (get_dice_fairness m rolls F alpha).sample_validity.total →
      ∃ p : ℚ, (get_dice_fairness m rolls F alpha).fairness_test.p_value = some p ∧
        (get_dice_fairness m rolls F alpha).fairness_test.is_fair
          = some (decide (p ≥ alpha))) := by
  constructor
  · intro hlt
    have hlt' : (observed_counts (flatten_rolls rolls) F).sum < 5 * F := hlt
    have hv : (check_sample_size_validity (observed_counts (flatten_rolls rolls) F) F).valid
        = false := by
      simp only [check_sample_size_validity, decide_eq_false_iff_not]
      omega
    refine ⟨?_, ?_, ?_⟩
    · simp [gdf_fairness_test, hv]
    · simp [gdf_fairness_test, hv]
    · have hmsg : (get_dice_fairness m rolls F alpha).fairness_test.conclusion
          = (check_sample_size_validity (observed_counts (flatten_rolls rolls) F) F).message := by
        simp [gdf_fairness_test, hv]
      rw [hmsg]
      show (if (observed_counts (flatten_rolls rolls) F).sum < 5 * F then
          insufficient_message (5 * F) (observed_counts (flatten_rolls rolls) F).sum
        else "") = _
      rw [if_pos hlt']
      rfl
  · intro hge
    have hge' : 5 * F ≤ (observed_counts (flatten_rolls rolls) F).sum := hge
    have hv : (check_sample_size_validity (observed_counts (flatten_rolls rolls) F) F).valid
        = true := by
      simp only [check_sample_size_validity, decide_eq_true_eq]
      omega
    refine ⟨(chi_square_test m (observed_counts (flatten_rolls rolls) F) none).2, ?_, ?_⟩
    · simp [gdf_fairness_test, hv, interpret_chi_square_result]
    · simp [gdf_fairness_test, hv, interpret_chi_square_result]

/-- Witness for C1: a six-face history of 30 flattened outcomes sits on the
validity boundary, and a three-outcome history falls below it. -/
theorem get_dice_fairness_tri_state_witness :
    ((get_dice_fairness chisq_model_default (Rolls.single [1, 2, 3]) 6 (1 / 20)).sample_validity.total < 5 * 6 →
      (get_dice_fairness chisq_model_default (Rolls.single [1, 2, 3]) 6 (1 / 20)).fairness_test.is_fair = none ∧
      (get_dice_fairness chisq_model_default (Rolls.single [1, 2, 3]) 6 (1 / 20)).fairness_test.p_value = none ∧
      (get_dice_fairness chisq_model_default (Rolls.single [1, 2, 3]) 6 (1 / 20)).fairness_test.conclusion
        = insufficient_message (5 * 6)
            (get_dice_fairness chisq_model_default (Rolls.single [1, 2, 3]) 6 (1 / 20)).sample_validity.total) ∧
    (5 * 6 ≤ (get_dice_fairness chisq_model_default (Rolls.single [1, 2, 3]) 6 (1 / 20)).sample_validity.total →
      ∃ p : ℚ, (get_dice_fairness chisq_model_default (Rolls.single [1, 2, 3]) 6 (1 / 20)).fairness_test.p_value = some p ∧
        (get_dice_fairness chisq_model_default (Rolls.single [1, 2, 3]) 6 (1 / 20)).fairness_test.is_fair
          = some (decide (p ≥ (1 : ℚ) / 20))) :=
  get_dice_fairness_tri_state chisq_model_default (Rolls.single [1, 2, 3]) 6 (1 / 20)
    (by decide) (by norm_num) (by norm_num)

end DiceGraph
